import Mathlib

/-
Verification of the client-side quantum execution pipeline of the
HelloQuatumWorld notebook (src/quantum_notebook.ipynb).

The notebook itself holds ~40 executable lines of glue: it builds a
two-qubit circuit, six Pauli observables, remaps the observables through
the placed circuit's layout, submits one execution request, polls for the
result, and extracts per-observable expectation values.  The operations it
calls (QuantumCircuit construction, SparsePauliOp.apply_layout,
EstimatorV2.run, job.result) are library code not present in this
repository; the specification (spec.md §3-§4.5) pins down their contracts.
Those operations are therefore modelled from the spec below (each such
definition says so in its doc comment), while the notebook's own code
(the empty token list fed to random.choice, and the list comprehension
applying one layout to every observable) is embedded directly.
-/

namespace QuantumNotebook

/-- Per-qubit basis labels of an observable (spec §3, Observable):
one of Identity, X, Y, Z. -/
inductive PauliLabel
  | Identity
  | X
  | Y
  | Z
deriving DecidableEq, Repr

/-- An observable: a fixed-length sequence of per-qubit basis labels,
ordered to match register indices (spec §3). -/
structure Observable where
  labels : List PauliLabel
deriving DecidableEq, Repr

/-- Local-validation error taxonomy (spec §7). -/
inductive QErr
  | InvalidArgument
  | IndexOutOfRange
deriving DecidableEq, Repr

/-- Validity of a layout for remapping (spec §4.3): a permutation-like
mapping giving every logical index a physical index, injective, with every
mapped index inside the target register. -/
def layoutValid (layout : List Nat) (labels : List PauliLabel) (target : Nat) : Prop :=
  layout.length = labels.length ∧ layout.Nodup ∧ ∀ p ∈ layout, p < target

instance (layout : List Nat) (labels : List PauliLabel) (target : Nat) :
    Decidable (layoutValid layout labels target) := by
  unfold layoutValid
  infer_instance

/-- Writes each (position, label) pair into an accumulator sequence,
left to right. -/
def writeAt {α : Type} : List (Nat × α) → List α → List α
  | [], init => init
  | (q, v) :: rest, init => writeAt rest (init.set q v)

/-- Modelled from the spec: the Layout Remapper contract of §4.3 realised
by SparsePauliOp.apply_layout, which is library code absent from src/.
Produces a label sequence of length targetQubitCount, defaulting every
position to Identity, then placing each original label at the physical
index given by the layout; fails with InvalidArgument on an invalid
layout. -/
def remap (obs : Observable) (layout : List Nat) (target : Nat) : Except QErr Observable :=
  if layoutValid layout obs.labels target then
    .ok ⟨writeAt (layout.zip obs.labels) (List.replicate target .Identity)⟩
  else
    .error .InvalidArgument

theorem writeAt_length {α : Type} (ps : List (Nat × α)) (init : List α) :
    (writeAt ps init).length = init.length := by
  induction ps generalizing init with
  | nil => rfl
  | cons hd tl ih =>
    obtain ⟨q, v⟩ := hd
    simp [writeAt, ih, List.length_set]

theorem writeAt_not_mem {α : Type} (ps : List (Nat × α)) (init : List α) (p : Nat)
    (hp : p ∉ ps.map Prod.fst) : (writeAt ps init)[p]? = init[p]? := by
  induction ps generalizing init with
  | nil => rfl
  | cons hd tl ih =>
    obtain ⟨q, v⟩ := hd
    simp only [List.map_cons, List.mem_cons, not_or] at hp
    rw [writeAt, ih _ hp.2, List.getElem?_set_ne (fun h => hp.1 h.symm)]

theorem writeAt_mem {α : Type} (ps : List (Nat × α)) (init : List α) (q : Nat) (v : α)
    (hnd : (ps.map Prod.fst).Nodup) (hmem : (q, v) ∈ ps) (hq : q < init.length) :
    (writeAt ps init)[q]? = some v := by
  induction ps generalizing init with
  | nil => cases hmem
  | cons hd tl ih =>
    obtain ⟨q0, v0⟩ := hd
    simp only [List.map_cons, List.nodup_cons] at hnd
    rcases List.mem_cons.mp hmem with heq | htl
    · obtain ⟨rfl, rfl⟩ : q0 = q ∧ v0 = v := by
        simpa [eq_comm] using heq
      rw [writeAt, writeAt_not_mem _ _ _ hnd.1,
        List.getElem?_set_self (by simpa using hq)]
    · rw [writeAt]
      exact ih (init.set q0 v0) hnd.2 htl (by simpa [List.length_set] using hq)

/-- Shared core of the remap correctness argument: what an accepted remap
returns, position by position. -/
theorem remap_ok_spec (obs : Observable) (layout : List Nat) (target : Nat)
    (h : layoutValid layout obs.labels target) :
    ∃ res, remap obs layout target = .ok res ∧
      res.labels.length = target ∧
      (∀ p, p < target → p ∉ layout → res.labels[p]? = some .Identity) ∧
      (∀ i, (hi : i < layout.length) → res.labels[layout[i]]? = obs.labels[i]?) := by
  obtain ⟨hlen, hnd, hbound⟩ := h
  refine ⟨⟨writeAt (layout.zip obs.labels) (List.replicate target .Identity)⟩,
    by rw [remap, if_pos ⟨hlen, hnd, hbound⟩], ?_, ?_, ?_⟩
  · rw [writeAt_length, List.length_replicate]
  · intro p hp hnot
    rw [writeAt_not_mem, List.getElem?_replicate, if_pos hp]
    rwa [List.map_fst_zip _ _ (le_of_eq hlen)]
  · intro i hi
    have hzlen : i < (layout.zip obs.labels).length := by
      rw [List.length_zip]
      omega
    have hpair : (layout[i], obs.labels.get ⟨i, hlen ▸ hi⟩) ∈ layout.zip obs.labels := by
      rw [List.get_eq_getElem]
      have := List.getElem_mem hzlen
      rwa [List.getElem_zip] at this
    rw [writeAt_mem _ _ _ _ (by rwa [List.map_fst_zip _ _ (le_of_eq hlen)]) hpair
      (by rw [List.length_replicate]; exact hbound _ (List.getElem_mem hi)),
      List.getElem?_eq_getElem (hlen ▸ hi), List.get_eq_getElem]

/-- C1: for every observable and every valid injective in-bounds layout,
remap returns an observable whose label sequence has length exactly
targetQubitCount, carries Identity at every position not hit by the
layout, and carries the original label of each logical index at the
physical index given by the layout. -/
theorem remap_spec (obs : Observable) (layout : List Nat) (target : Nat)
    (h : layoutValid layout obs.labels target) :
    ∃ res, remap obs layout target = .ok res ∧
      res.labels.length = target ∧
      (∀ p, p < target → p ∉ layout → res.labels[p]? = some .Identity) ∧
      (∀ i, (hi : i < layout.length) → res.labels[layout[i]]? = obs.labels[i]?) :=
  remap_ok_spec obs layout target h

/-- Witness for C1 at a concrete observable and layout. -/
theorem remap_spec_witness :
    layoutValid [1, 0] (Observable.mk [.Z, .X]).labels 2 ∧
    ∃ res, remap ⟨[.Z, .X]⟩ [1, 0] 2 = .ok res ∧
      res.labels.length = 2 ∧
      (∀ p, p < 2 → p ∉ [1, 0] → res.labels[p]? = some PauliLabel.Identity) ∧
      (∀ i, (hi : i < List.length [1, 0]) →
        res.labels[[1, 0][i]]? = (Observable.mk [.Z, .X]).labels[i]?) :=
  ⟨by decide, remap_spec ⟨[.Z, .X]⟩ [1, 0] 2 (by decide)⟩

/-- C2: remapping any observable with the identity permutation while
keeping the qubit count unchanged returns an observable equal to the
input. -/
theorem remap_identity (obs : Observable) :
    remap obs (List.range obs.labels.length) obs.labels.length = .ok obs := by
  obtain ⟨labels⟩ := obs
  have hvalid : layoutValid (List.range labels.length) labels labels.length :=
    ⟨List.length_range _, List.nodup_range _, fun p hp => List.mem_range.mp hp⟩
  obtain ⟨res, hok, hlen, _, hmap⟩ :=
    remap_ok_spec ⟨labels⟩ (List.range labels.length) labels.length hvalid
  rw [hok]
  refine congrArg Except.ok ?_
  have hlabels : res.labels = labels := by
    refine List.ext_getElem? fun p => ?_
    by_cases hp : p < labels.length
    · have hp2 : p < (List.range labels.length).length := by simpa using hp
      have hres := hmap p hp2
      rwa [List.getElem_range] at hres
    · rw [List.getElem?_eq_none (by omega), List.getElem?_eq_none (by omega)]
  obtain ⟨rl⟩ := res
  simpa using hlabels

/-- One per-observable measurement summary of a Result (spec §3):
expectation value and standard error. -/
structure Summary where
  ev : Rat
  std : Rat
deriving DecidableEq, Repr

/-- Job states of the remote state machine (spec §4.4):
Submitted, Queued, Running, and the terminal Completed / Failed /
Cancelled, the terminal ones carrying their payload or diagnostic. -/
inductive JobState
  | Submitted
  | Queued
  | Running
  | Completed (payload : List Summary)
  | Failed (diag : String)
  | Cancelled
deriving DecidableEq, Repr

/-- Outcome of a blocking result call (spec §4.4). -/
inductive ResultOutcome
  | ok (payload : List Summary)
  | remoteExecutionError (diag : String)
  | cancelled
  | timeout
deriving DecidableEq, Repr

/-- The outcome a poll step produces when it sees a terminal state,
none on a non-terminal state. -/
def terminalOutcome : JobState → Option ResultOutcome
  | .Completed p => some (.ok p)
  | .Failed d => some (.remoteExecutionError d)
  | .Cancelled => some .cancelled
  | _ => none

/-- A state is terminal when a poll step stops on it. -/
def JobState.isTerminal (s : JobState) : Bool :=
  (terminalOutcome s).isSome

/-- Modelled from the spec: the polling loop inside result() of §4.4,
realised by job.result of the runtime library, absent from src/.
At step k it queries the remote state; a terminal state yields its
outcome, otherwise it sleeps and retries while the fuel (the number of
remaining sleeps before the timeout budget is spent) lasts, then fails
with timeout. -/
def pollLoop (query : Nat → JobState) : Nat → Nat → ResultOutcome
  | 0, k =>
    match terminalOutcome (query k) with
    | some o => o
    | none => .timeout
  | fuel + 1, k =>
    match terminalOutcome (query k) with
    | some o => o
    | none => pollLoop query fuel (k + 1)

/-- A job handle: the remote identifier plus the remote state trace
(state as a function of poll step), of which the remote service is the
source of truth (spec §3, Job). -/
structure RemoteJob where
  jobId : String
  trace : Nat → JobState

/-- Number of sleeps the timeout budget allows between polls. -/
def pollBudget (pollInterval timeout : Nat) : Nat :=
  timeout / max pollInterval 1

/-- Modelled from the spec: result(handle, pollInterval, timeout) of
§4.4.  Polling only queries the remote state: the job record is returned
untouched (the client does not implicitly cancel on local timeout). -/
def result (j : RemoteJob) (pollInterval timeout : Nat) :
    ResultOutcome × RemoteJob :=
  (pollLoop j.trace (pollBudget pollInterval timeout) 0, j)

/-- Terminal states are absorbing: once the remote service reports a
terminal state, every later query reports the same state (spec §4.4:
terminal states have no outgoing transitions). -/
def Absorbing (trace : Nat → JobState) : Prop :=
  ∀ k, (trace k).isTerminal = true → trace (k + 1) = trace k

theorem absorbing_stable (trace : Nat → JobState) (habs : Absorbing trace)
    (k : Nat) (hk : (trace k).isTerminal = true) :
    ∀ j, k ≤ j → trace j = trace k := by
  intro j hj
  induction j, hj using Nat.le_induction with
  | base => rfl
  | succ m hm ih => rw [habs m (by rw [ih]; exact hk), ih]

theorem pollLoop_of_terminal (query : Nat → JobState) (fuel k : Nat)
    (o : ResultOutcome) (h : terminalOutcome (query k) = some o) :
    pollLoop query fuel k = o := by
  cases fuel <;> simp [pollLoop, h]

theorem pollLoop_reaches (trace : Nat → JobState) (habs : Absorbing trace)
    (o : ResultOutcome) :
    ∀ fuel k0 k, k0 ≤ k → k ≤ k0 + fuel →
      terminalOutcome (trace k) = some o → pollLoop trace fuel k0 = o := by
  intro fuel
  induction fuel with
  | zero =>
    intro k0 k hk0 hk ht
    have : k = k0 := by omega
    subst this
    exact pollLoop_of_terminal _ _ _ _ ht
  | succ f ih =>
    intro k0 k hk0 hk ht
    cases h0 : terminalOutcome (trace k0) with
    | some o' =>
      have hstable := absorbing_stable trace habs k0
        (by rw [JobState.isTerminal, h0]; rfl) k hk0
      rw [hstable, h0] at ht
      rw [pollLoop_of_terminal _ _ _ _ h0]
      exact Option.some.inj ht
    | none =>
      have hne : k ≠ k0 := by
        intro hcontra
        rw [hcontra, h0] at ht
        cases ht
      rw [pollLoop]
      rw [h0]
      exact ih (k0 + 1) k (by omega) (by omega) ht

theorem pollLoop_timeout (trace : Nat → JobState) :
    ∀ fuel k0, (∀ k, k0 ≤ k → k ≤ k0 + fuel → terminalOutcome (trace k) = none) →
      pollLoop trace fuel k0 = .timeout := by
  intro fuel
  induction fuel with
  | zero =>
    intro k0 h
    rw [pollLoop, h k0 le_rfl (by omega)]
  | succ f ih =>
    intro k0 h
    rw [pollLoop, h k0 le_rfl (by omega)]
    exact ih (k0 + 1) fun k hk0 hk => h k (by omega) (by omega)

/-- C3: under an absorbing remote trace, result returns the payload
exactly on a job that reaches Completed inside the poll budget, fails
with RemoteExecutionError on Failed, fails with Cancelled on Cancelled,
and fails with timeout when the budget elapses with the job still
non-terminal. -/
theorem result_state_machine (j : RemoteJob) (pollInterval timeout : Nat)
    (habs : Absorbing j.trace) :
    (∀ p k, k ≤ pollBudget pollInterval timeout → j.trace k = .Completed p →
      (result j pollInterval timeout).1 = .ok p) ∧
    (∀ d k, k ≤ pollBudget pollInterval timeout → j.trace k = .Failed d →
      (result j pollInterval timeout).1 = .remoteExecutionError d) ∧
    (∀ k, k ≤ pollBudget pollInterval timeout → j.trace k = .Cancelled →
      (result j pollInterval timeout).1 = .cancelled) ∧
    ((∀ k, k ≤ pollBudget pollInterval timeout → (j.trace k).isTerminal = false) →
      (result j pollInterval timeout).1 = .timeout) := by
  refine ⟨?_, ?_, ?_, ?_⟩
  · intro p k hk ht
    exact pollLoop_reaches j.trace habs _ _ 0 k (Nat.zero_le _) (by omega)
      (by rw [ht]; rfl)
  · intro d k hk ht
    exact pollLoop_reaches j.trace habs _ _ 0 k (Nat.zero_le _) (by omega)
      (by rw [ht]; rfl)
  · intro k hk ht
    exact pollLoop_reaches j.trace habs _ _ 0 k (Nat.zero_le _) (by omega)
      (by rw [ht]; rfl)
  · intro h
    refine pollLoop_timeout j.trace _ 0 fun k hk0 hk => ?_
    have := h k (by omega)
    rw [JobState.isTerminal] at this
    exact Option.not_isSome_iff_eq_none.mp (by rw [this]; decide)

/-- Witness for C3: a job completed from the start yields its payload,
and a job forever Running times out. -/
theorem result_state_machine_witness :
    (result ⟨"job-1", fun _ => .Completed [⟨1, 0⟩]⟩ 5 20).1 = .ok [⟨1, 0⟩] ∧
    (result ⟨"job-2", fun _ => .Running⟩ 5 20).1 = .timeout :=
  ⟨(result_state_machine ⟨"job-1", fun _ => .Completed [⟨1, 0⟩]⟩ 5 20
      (fun _ _ => rfl)).1 [⟨1, 0⟩] 0 (Nat.zero_le _) rfl,
    (result_state_machine ⟨"job-2", fun _ => .Running⟩ 5 20
      (fun k h => by cases h)).2.2.2 (fun _ _ => rfl)⟩

/-- C4: result with a timeout of zero on a job whose remote state is not
yet terminal fails with timeout, and the job record is returned
unchanged: the client mutates no remote state on local timeout. -/
theorem result_zero_timeout (j : RemoteJob) (pollInterval : Nat)
    (h : (j.trace 0).isTerminal = false) :
    (result j pollInterval 0).1 = .timeout ∧ (result j pollInterval 0).2 = j := by
  constructor
  · have hbudget : pollBudget pollInterval 0 = 0 := Nat.zero_div _
    rw [result, hbudget]
    exact pollLoop_timeout j.trace 0 0 fun k hk0 hk => by
      have : k = 0 := by omega
      subst this
      rw [JobState.isTerminal] at h
      exact Option.not_isSome_iff_eq_none.mp (by rw [h]; decide)
  · rfl

/-- Witness for C4 at a concrete queued job. -/
theorem result_zero_timeout_witness :
    ((⟨"job-3", fun _ => .Queued⟩ : RemoteJob).trace 0).isTerminal = false ∧
    (result ⟨"job-3", fun _ => .Queued⟩ 5 0).1 = .timeout ∧
    (result ⟨"job-3", fun _ => .Queued⟩ 5 0).2 = ⟨"job-3", fun _ => .Queued⟩ :=
  ⟨rfl, result_zero_timeout ⟨"job-3", fun _ => .Queued⟩ 5 rfl⟩

/-- A circuit operation (spec §3): a single-qubit gate with kind and
target index, or a two-qubit gate with kind, control and target index. -/
inductive Op
  | single (kind : String) (target : Nat)
  | two (kind : String) (control target : Nat)
deriving DecidableEq, Repr

/-- Every index an operation references is inside the register. -/
def Op.inBounds : Op → Nat → Bool
  | .single _ t, n => decide (t < n)
  | .two _ c t, n => decide (c < n) && decide (t < n)

/-- A circuit: a register size and an ordered operation sequence
(spec §3). -/
structure Circuit where
  qubitCount : Nat
  ops : List Op
deriving DecidableEq, Repr

/-- Modelled from the spec: newCircuit of §4.1, realised by the
QuantumCircuit constructor of the library, absent from src/. -/
def newCircuit (qubitCount : Nat) : Except QErr Circuit :=
  if 0 < qubitCount then .ok ⟨qubitCount, []⟩ else .error .InvalidArgument

/-- Modelled from the spec: addSingleQubitGate of §4.1 (the notebook's
qc.h call); fails with IndexOutOfRange on an index outside the
register. -/
def addSingleQubitGate (c : Circuit) (kind : String) (index : Nat) :
    Except QErr Circuit :=
  if index < c.qubitCount then
    .ok ⟨c.qubitCount, c.ops ++ [.single kind index]⟩
  else
    .error .IndexOutOfRange

/-- Modelled from the spec: addTwoQubitGate of §4.1 (the notebook's
qc.cx call); fails with IndexOutOfRange on an index outside the register
and with InvalidArgument when control equals target. -/
def addTwoQubitGate (c : Circuit) (kind : String) (control target : Nat) :
    Except QErr Circuit :=
  if control < c.qubitCount ∧ target < c.qubitCount then
    if control = target then
      .error .InvalidArgument
    else
      .ok ⟨c.qubitCount, c.ops ++ [.two kind control target]⟩
  else
    .error .IndexOutOfRange

/-- One append step of builder-style circuit construction. -/
inductive BuildStep
  | single (kind : String) (index : Nat)
  | two (kind : String) (control target : Nat)
deriving DecidableEq, Repr

/-- Applies one append step to a circuit under construction. -/
def applyStep (c : Circuit) : BuildStep → Except QErr Circuit
  | .single k i => addSingleQubitGate c k i
  | .two k ctl t => addTwoQubitGate c k ctl t

/-- Runs a sequence of append steps, stopping at the first failure. -/
def buildSteps (c : Circuit) : List BuildStep → Except QErr Circuit
  | [] => .ok c
  | s :: rest => (applyStep c s).bind fun c' => buildSteps c' rest

/-- Builder-style construction: newCircuit followed by append steps
(spec §3, Circuit; §4.1). -/
def build (qubitCount : Nat) (steps : List BuildStep) : Except QErr Circuit :=
  (newCircuit qubitCount).bind fun c => buildSteps c steps

/-- The construction invariant: register size is the declared count and
every operation is in bounds. -/
def CircuitInv (n : Nat) (c : Circuit) : Prop :=
  c.qubitCount = n ∧ ∀ op ∈ c.ops, op.inBounds n = true

theorem applyStep_inv (n : Nat) (c c' : Circuit) (s : BuildStep)
    (hinv : CircuitInv n c) (h : applyStep c s = .ok c') : CircuitInv n c' := by
  obtain ⟨hn, hops⟩ := hinv
  cases s with
  | single k i =>
    rw [applyStep, addSingleQubitGate] at h
    split at h
    · obtain rfl := Except.ok.inj h
      refine ⟨hn, fun op hop => ?_⟩
      rcases List.mem_append.mp hop with hmem | hmem
      · exact hops op hmem
      · obtain rfl := List.mem_singleton.mp hmem
        simp only [Op.inBounds, decide_eq_true_eq]
        omega
    · cases h
  | two k ctl t =>
    rw [applyStep, addTwoQubitGate] at h
    split at h
    · split at h
      · cases h
      · obtain rfl := Except.ok.inj h
        refine ⟨hn, fun op hop => ?_⟩
        rcases List.mem_append.mp hop with hmem | hmem
        · exact hops op hmem
        · obtain rfl := List.mem_singleton.mp hmem
          simp only [Op.inBounds, Bool.and_eq_true, decide_eq_true_eq]
          omega
    · cases h

theorem buildSteps_inv (n : Nat) :
    ∀ (steps : List BuildStep) (c c' : Circuit), CircuitInv n c →
      buildSteps c steps = .ok c' → CircuitInv n c' := by
  intro steps
  induction steps with
  | nil =>
    intro c c' hinv h
    obtain rfl := Except.ok.inj h
    exact hinv
  | cons s rest ih =>
    intro c c' hinv h
    rw [buildSteps] at h
    cases happ : applyStep c s with
    | ok cmid =>
      rw [happ] at h
      exact ih cmid c' (applyStep_inv n c cmid s hinv happ) h
    | error e =>
      rw [happ] at h
      cases h

/-- C7: every circuit built through newCircuit followed by successful
append calls has register size equal to the declared qubit count and
every operation index strictly inside the register; and both adders fail
with IndexOutOfRange on any index at or beyond the register size, so
construction never admits an out-of-range index. -/
theorem circuit_construction_invariant (n : Nat) (steps : List BuildStep)
    (c : Circuit) (h : build n steps = .ok c) :
    (c.qubitCount = n ∧ ∀ op ∈ c.ops, op.inBounds c.qubitCount = true) ∧
    (∀ c0 kind i, c0.qubitCount ≤ i →
      addSingleQubitGate c0 kind i = .error .IndexOutOfRange) ∧
    (∀ c0 kind ctl t, c0.qubitCount ≤ ctl ∨ c0.qubitCount ≤ t →
      addTwoQubitGate c0 kind ctl t = .error .IndexOutOfRange) := by
  refine ⟨?_, ?_, ?_⟩
  · rw [build, newCircuit] at h
    split at h
    · have hinv := buildSteps_inv n steps ⟨n, []⟩ c ⟨rfl, by simp⟩ h
      exact ⟨hinv.1, by rw [hinv.1]; exact hinv.2⟩
    · cases h
  · intro c0 kind i hi
    rw [addSingleQubitGate, if_neg (by omega)]
  · intro c0 kind ctl t hor
    rw [addTwoQubitGate, if_neg (by omega)]

instance {ε α : Type} [DecidableEq ε] [DecidableEq α] : DecidableEq (Except ε α)
  | .ok a, .ok b =>
    if h : a = b then .isTrue (by rw [h]) else .isFalse fun hc => h (Except.ok.inj hc)
  | .ok _, .error _ => .isFalse fun hc => Except.noConfusion hc
  | .error _, .ok _ => .isFalse fun hc => Except.noConfusion hc
  | .error e, .error f =>
    if h : e = f then .isTrue (by rw [h]) else .isFalse fun hc => h (Except.error.inj hc)

/-- Witness for C7: the notebook's circuit (two qubits, H on 0, CX 0 1)
builds successfully and satisfies the invariant. -/
theorem circuit_construction_invariant_witness :
    build 2 [.single "h" 0, .two "cx" 0 1] =
      .ok ⟨2, [.single "h" 0, .two "cx" 0 1]⟩ ∧
    (⟨2, [.single "h" 0, .two "cx" 0 1]⟩ : Circuit).qubitCount = 2 :=
  ⟨by decide,
    (circuit_construction_invariant 2 [.single "h" 0, .two "cx" 0 1]
      ⟨2, [.single "h" 0, .two "cx" 0 1]⟩ (by decide)).1.1⟩

/-- An execution request (spec §3): a placed circuit, the remapped
observables, and the run configuration. -/
structure ExecutionRequest where
  circuit : Circuit
  observables : List Observable
  shots : Nat
  resilienceLevel : Nat
deriving DecidableEq, Repr

/-- Local well-formedness of a request (spec §4.4): register sizes match
across the circuit and every observable, and shots is positive. -/
def wellFormedB (req : ExecutionRequest) : Bool :=
  req.observables.all (fun o => o.labels.length == req.circuit.qubitCount) &&
    decide (0 < req.shots)

/-- Outcome of a submit call (spec §4.4). -/
inductive SubmitOutcome
  | accepted (jobId : String)
  | validationError (e : QErr)
  | submissionError (diag : String)
deriving DecidableEq, Repr

/-- Modelled from the spec: submit(request) of §4.4, realised by
EstimatorV2.run in the library, absent from src/.  The remote service is
a parameter; the second component records every request that crossed the
network boundary.  Validation happens locally first: an ill-formed
request is rejected with a validation error and nothing is sent. -/
def submit (remote : ExecutionRequest → Except String String)
    (req : ExecutionRequest) : SubmitOutcome × List ExecutionRequest :=
  if wellFormedB req then
    match remote req with
    | .ok jobId => (.accepted jobId, [req])
    | .error d => (.submissionError d, [req])
  else
    (.validationError .InvalidArgument, [])

/-- C5: submit validates register-size consistency and shots positivity
locally before any network I/O; every request that reaches the remote
service is well-formed, and an ill-formed request yields a validation
error with nothing sent, so validation errors never cross the network
boundary. -/
theorem submit_validates_locally (remote : ExecutionRequest → Except String String)
    (req : ExecutionRequest) :
    (∀ r ∈ (submit remote req).2, wellFormedB r = true) ∧
    (wellFormedB req = false →
      (submit remote req).1 = .validationError .InvalidArgument ∧
      (submit remote req).2 = []) := by
  constructor
  · intro r hr
    by_cases hwf : wellFormedB req
    · cases hrem : remote req <;>
        · rw [submit, if_pos hwf, hrem] at hr
          obtain rfl := List.mem_singleton.mp hr
          exact hwf
    · rw [submit, if_neg hwf] at hr
      cases hr
  · intro hwf
    rw [submit, if_neg (by rw [hwf]; exact Bool.false_ne_true)]
    exact ⟨rfl, rfl⟩

/-- Witness for C5: a request with a mismatched observable is rejected
locally and never sent. -/
theorem submit_validates_locally_witness :
    wellFormedB ⟨⟨2, []⟩, [⟨[.Z]⟩], 1000, 1⟩ = false ∧
    (submit (fun _ => .ok "job-5") ⟨⟨2, []⟩, [⟨[.Z]⟩], 1000, 1⟩).1 =
      .validationError .InvalidArgument ∧
    (submit (fun _ => .ok "job-5") ⟨⟨2, []⟩, [⟨[.Z]⟩], 1000, 1⟩).2 = [] :=
  ⟨by decide,
    (submit_validates_locally (fun _ => .ok "job-5")
      ⟨⟨2, []⟩, [⟨[.Z]⟩], 1000, 1⟩).2 (by decide)⟩

/-- Modelled from the spec: the Result a faithful remote service reports
for a request (spec §3, Result; §4.5): one summary per submitted
observable, in submission order, computed by the service's estimator. -/
def runRequest (evalObs : Observable → Summary) (req : ExecutionRequest) :
    List Summary :=
  req.observables.map evalObs

/-- A remote trace is faithful to a request when every Completed payload
it ever reports is the one the service computed for that request. -/
def ServiceFaithful (trace : Nat → JobState) (evalObs : Observable → Summary)
    (req : ExecutionRequest) : Prop :=
  ∀ k q, trace k = .Completed q → q = runRequest evalObs req

theorem terminalOutcome_ok (s : JobState) (p : List Summary)
    (h : terminalOutcome s = some (.ok p)) : s = .Completed p := by
  cases s <;> simp_all [terminalOutcome]

theorem pollLoop_ok_reached (trace : Nat → JobState) :
    ∀ fuel k0 p, pollLoop trace fuel k0 = .ok p → ∃ k, trace k = .Completed p := by
  intro fuel
  induction fuel with
  | zero =>
    intro k0 p h
    rw [pollLoop] at h
    cases h0 : terminalOutcome (trace k0) with
    | some o =>
      rw [h0] at h
      subst h
      exact ⟨k0, terminalOutcome_ok _ _ h0⟩
    | none =>
      rw [h0] at h
      cases h
  | succ f ih =>
    intro k0 p h
    rw [pollLoop] at h
    cases h0 : terminalOutcome (trace k0) with
    | some o =>
      rw [h0] at h
      subst h
      exact ⟨k0, terminalOutcome_ok _ _ h0⟩
    | none =>
      rw [h0] at h
      exact ih (k0 + 1) p h

/-- C6: when result returns a payload on a job served faithfully for a
request, that payload has exactly one summary per submitted observable
and the summary at position i is the one computed for the observable at
position i. -/
theorem completed_result_correspondence (j : RemoteJob)
    (evalObs : Observable → Summary) (req : ExecutionRequest)
    (pollInterval timeout : Nat) (p : List Summary)
    (hfaith : ServiceFaithful j.trace evalObs req)
    (hok : (result j pollInterval timeout).1 = .ok p) :
    p.length = req.observables.length ∧
    ∀ i : Nat, p[i]? = (req.observables[i]?).map evalObs := by
  obtain ⟨k, hk⟩ := pollLoop_ok_reached j.trace _ 0 p hok
  obtain rfl := hfaith k p hk
  exact ⟨List.length_map _ _, fun i => List.getElem?_map evalObs _ i⟩

/-- Witness for C6 at a concrete two-observable request served by a
constant estimator. -/
theorem completed_result_correspondence_witness :
    ((runRequest (fun _ => ⟨1, 0⟩) ⟨⟨2, []⟩, [⟨[.Z, .Z]⟩, ⟨[.X, .X]⟩], 1000, 1⟩).length
        = ([⟨[.Z, .Z]⟩, ⟨[.X, .X]⟩] : List Observable).length) ∧
    ∀ i : Nat, (runRequest (fun _ => (⟨1, 0⟩ : Summary))
        ⟨⟨2, []⟩, [⟨[.Z, .Z]⟩, ⟨[.X, .X]⟩], 1000, 1⟩)[i]? =
      (([⟨[.Z, .Z]⟩, ⟨[.X, .X]⟩] : List Observable)[i]?).map
        (fun _ => (⟨1, 0⟩ : Summary)) :=
  completed_result_correspondence
    ⟨"job-6", fun _ => .Completed (runRequest (fun _ => ⟨1, 0⟩)
      ⟨⟨2, []⟩, [⟨[.Z, .Z]⟩, ⟨[.X, .X]⟩], 1000, 1⟩)⟩
    (fun _ => ⟨1, 0⟩) ⟨⟨2, []⟩, [⟨[.Z, .Z]⟩, ⟨[.X, .X]⟩], 1000, 1⟩ 5 20 _
    (fun _ _ hq => (JobState.Completed.inj hq).symm)
    (pollLoop_of_terminal _ _ 0 _ rfl)

/-- The notebook's mapping step, embedded from src/quantum_notebook.ipynb:
mapped_observables applies the placed circuit's single layout to every
observable via one list comprehension. -/
def mapped_observables (isaLayout : List Nat) (target : Nat)
    (observables : List Observable) : List (Except QErr Observable) :=
  observables.map fun observable => remap observable isaLayout target

/-- C8: every observable of a request is remapped independently with
exactly one and the same layout — the mapped list has one entry per
observable and its entry at position i is remap of the observable at
position i under that single shared layout. -/
theorem shared_layout (isaLayout : List Nat) (target : Nat)
    (observables : List Observable) :
    (mapped_observables isaLayout target observables).length = observables.length ∧
    ∀ i : Nat, (mapped_observables isaLayout target observables)[i]? =
      (observables[i]?).map fun o => remap o isaLayout target :=
  ⟨List.length_map _ _, fun i => List.getElem?_map _ _ i⟩

/-- The notebook's candidate token list, embedded from
src/quantum_notebook.ipynb: the literal empty list. -/
def tokens : List String := []

/-- Python's random.choice on a sequence: picks the element at a
random in-range index; on an empty sequence there is none (the library
raises IndexError). -/
def randomChoice {α : Type} (seed : Nat) (xs : List α) : Option α :=
  xs[seed % xs.length]?

/-- The runtime service client the notebook constructs from the chosen
token. -/
structure ServiceClient where
  channel : String
  token : String
deriving DecidableEq, Repr

/-- The notebook's connection step, embedded from
src/quantum_notebook.ipynb: choose a token at random from tokens, then
construct the service client from it. -/
def connectStep (seed : Nat) : Option ServiceClient :=
  (randomChoice seed tokens).map fun t => ⟨"ibm_quantum", t⟩

/-- C9: with the token list the empty literal, the connection step fails
for every random draw before any client is constructed: no service
client ever exists and no token is ever sent. -/
theorem connect_never_constructs :
    ∀ seed, connectStep seed = none ∧ randomChoice seed tokens = none :=
  fun _ => ⟨rfl, rfl⟩

/-- C10: on a job already in the terminal Completed state, result is
deterministic: any two calls return the same payload, and element 0 of
the second call's payload equals element 0 of the first call's
payload. -/
theorem result_repeat_deterministic (j : RemoteJob) (p : List Summary)
    (pi1 to1 pi2 to2 : Nat) (h : j.trace 0 = .Completed p) :
    (result j pi1 to1).1 = .ok p ∧ (result j pi2 to2).1 = .ok p ∧
    (result j pi1 to1).1 = (result j pi2 to2).1 ∧
    ∃ q1 q2, (result j pi1 to1).1 = .ok q1 ∧ (result j pi2 to2).1 = .ok q2 ∧
      q1 = q2 ∧ q1[0]? = q2[0]? := by
  have h1 : (result j pi1 to1).1 = .ok p :=
    pollLoop_of_terminal j.trace _ 0 _ (by rw [h]; rfl)
  have h2 : (result j pi2 to2).1 = .ok p :=
    pollLoop_of_terminal j.trace _ 0 _ (by rw [h]; rfl)
  exact ⟨h1, h2, by rw [h1, h2], p, p, h1, h2, rfl, rfl⟩

/-- Witness for C10 at a concrete completed job polled with two
different configurations. -/
theorem result_repeat_deterministic_witness :
    ((⟨"job-7", fun _ => .Completed [⟨1, 0⟩, ⟨0, 1⟩]⟩ : RemoteJob).trace 0 =
      .Completed [⟨1, 0⟩, ⟨0, 1⟩]) ∧
    (result ⟨"job-7", fun _ => .Completed [⟨1, 0⟩, ⟨0, 1⟩]⟩ 5 20).1 =
      .ok [⟨1, 0⟩, ⟨0, 1⟩] ∧
    (result ⟨"job-7", fun _ => .Completed [⟨1, 0⟩, ⟨0, 1⟩]⟩ 3 0).1 =
      .ok [⟨1, 0⟩, ⟨0, 1⟩] ∧
    (result ⟨"job-7", fun _ => .Completed [⟨1, 0⟩, ⟨0, 1⟩]⟩ 5 20).1 =
      (result ⟨"job-7", fun _ => .Completed [⟨1, 0⟩, ⟨0, 1⟩]⟩ 3 0).1 ∧
    ∃ q1 q2,
      (result ⟨"job-7", fun _ => .Completed [⟨1, 0⟩, ⟨0, 1⟩]⟩ 5 20).1 = .ok q1 ∧
      (result ⟨"job-7", fun _ => .Completed [⟨1, 0⟩, ⟨0, 1⟩]⟩ 3 0).1 = .ok q2 ∧
      q1 = q2 ∧ q1[0]? = q2[0]? :=
  ⟨rfl, result_repeat_deterministic
    ⟨"job-7", fun _ => .Completed [⟨1, 0⟩, ⟨0, 1⟩]⟩ [⟨1, 0⟩, ⟨0, 1⟩] 5 20 3 0 rfl⟩

end QuantumNotebook
